import Mathlib

/-!
Verification of the voluptuous schema-compilation engine
(`voluptuous/schema_builder.py`, `voluptuous/error.py`).

The embedding mirrors the source closely:
* `Value` is the fragment of Python runtime values the schemas in the
  claims manipulate (ints, bools, strs, integral floats, None, lists,
  tuples, sets as element lists, dicts as association lists, plus the
  `Remove` class object that `Remove.__call__` returns).
* `pyEq` is Python `==` on that fragment (numeric cross-type equality
  `True == 1 == 1.0`, order-insensitive dict/set equality).
* `isInstance` is Python `isinstance` on the fragment (`bool` is a
  subclass of `int`).
-/

set_option autoImplicit false

namespace Voluptuous

/-- The fragment of Python values handled by the schemas under study.
`float` carries an integer because only integral float literals occur;
`removeClass` is the class object `Remove` (returned by `Remove.__call__`). -/
inductive Value where
  | int (n : Int)
  | bool (b : Bool)
  | str (s : String)
  | float (n : Int)
  | none
  | removeClass
  | list (vs : List Value)
  | tuple (vs : List Value)
  | set (vs : List Value)
  | dict (kvs : List (Value × Value))

/-- Numeric view used by Python `==`: `True == 1`, `1 == 1.0`. -/
def toIntQ : Value → Option Int
  | .int n => some n
  | .bool b => some (if b then 1 else 0)
  | .float n => some n
  | _ => Option.none

mutual

/-- Size of a value; recursion fuel for the functions below always
exceeds the relevant sizes, making their 0 cases unreachable. -/
def vsize : Value → Nat
  | .int _ => 1
  | .bool _ => 1
  | .str _ => 1
  | .float _ => 1
  | .none => 1
  | .removeClass => 1
  | .list vs => 1 + vsizeL vs
  | .tuple vs => 1 + vsizeL vs
  | .set vs => 1 + vsizeL vs
  | .dict kvs => 1 + vsizeKV kvs
termination_by structural v => v

def vsizeL : List Value → Nat
  | [] => 1
  | v :: vs => 1 + vsize v + vsizeL vs
termination_by structural l => l

def vsizeKV : List (Value × Value) → Nat
  | [] => 1
  | (k, v) :: r => 1 + vsize k + vsize v + vsizeKV r
termination_by structural l => l

end

mutual

/-- Python `==` on the modelled fragment, with recursion fuel.  The fuel
always exceeds the combined size of the arguments (see the wrapper
`pyEq`), so the 0 case is unreachable. -/
def pyEqF : Nat → Value → Value → Bool
  | 0, _, _ => false
  | Nat.succ n, a, b =>
    match a, b with
    | .str x, .str y => x == y
    | .none, .none => true
    | .removeClass, .removeClass => true
    | .list x, .list y => pyEqLF n x y
    | .tuple x, .tuple y => pyEqLF n x y
    | .set x, .set y => x.length == y.length && pySubF n x y
    | .dict x, .dict y => x.length == y.length && pyDictLeF n x y
    | _, _ =>
      match toIntQ a, toIntQ b with
      | some i, some j => i == j
      | _, _ => false

def pyEqLF : Nat → List Value → List Value → Bool
  | 0, _, _ => false
  | Nat.succ _, [], [] => true
  | Nat.succ n, a :: as_, b :: bs => pyEqF n a b && pyEqLF n as_ bs
  | Nat.succ _, _, _ => false

def pyMemF : Nat → Value → List Value → Bool
  | 0, _, _ => false
  | Nat.succ _, _, [] => false
  | Nat.succ n, x, y :: ys => pyEqF n x y || pyMemF n x ys

def pySubF : Nat → List Value → List Value → Bool
  | 0, _, _ => false
  | Nat.succ _, [], _ => true
  | Nat.succ n, x :: xs, b => pyMemF n x b && pySubF n xs b

def pyFindEqF : Nat → Value → Value → List (Value × Value) → Bool
  | 0, _, _, _ => false
  | Nat.succ _, _, _, [] => false
  | Nat.succ n, k, v, (k2, w) :: r => if pyEqF n k k2 then pyEqF n v w else pyFindEqF n k v r

def pyDictLeF : Nat → List (Value × Value) → List (Value × Value) → Bool
  | 0, _, _ => false
  | Nat.succ _, [], _ => true
  | Nat.succ n, (k, v) :: r, b => pyFindEqF n k v b && pyDictLeF n r b

end

/-- Python `==` on the modelled fragment: numeric cross-type equality via
`toIntQ`, pointwise list/tuple equality, order-insensitive set and dict
comparison. -/
def pyEq (a b : Value) : Bool :=
  pyEqF (vsize a + vsize b + 1) a b

/-- Python `in` for a list of values (`==`-based membership). -/
def pyMem (x : Value) (l : List Value) : Bool :=
  pyMemF (vsize x + vsizeL l + 1) x l

/-- First value stored under a key `pyEq` to `q` (Python `data[q]` / `q in data`). -/
def pyLookup : List (Value × Value) → Value → Option Value
  | [], _ => Option.none
  | (k, v) :: r, q => if pyEq q k then some v else pyLookup r q

/-- The Python types that appear as schema nodes or type-pattern keys. -/
inductive SType where
  | int | str | bool | float | list | tuple | set | dict
deriving DecidableEq

def typeName : SType → String
  | .int => "int"
  | .str => "str"
  | .bool => "bool"
  | .float => "float"
  | .list => "list"
  | .tuple => "tuple"
  | .set => "set"
  | .dict => "dict"

/-- Python `isinstance` on the fragment; `bool` is a subclass of `int`. -/
def isInstance : Value → SType → Bool
  | .bool _, .int => true
  | .bool _, .bool => true
  | .int _, .int => true
  | .float _, .float => true
  | .str _, .str => true
  | .list _, .list => true
  | .tuple _, .tuple => true
  | .set _, .set => true
  | .dict _, .dict => true
  | _, _ => false

/-- `skey(key)` for a type-pattern key that `key` is an instance of.
The only non-identity case in the fragment is `int(True) = 1` / `int(False) = 0`. -/
def coerceKey : SType → Value → Value
  | .int, .bool b => .int (if b then 1 else 0)
  | _, v => v

mutual

/-- Python `repr` of a value, with recursion fuel (see `pyRepr`; the 0 case
is unreachable).  Adequate for the values occurring in paths and messages
here; string escaping is not needed for the strings involved. -/
def pyReprF : Nat → Value → String
  | 0, _ => ""
  | Nat.succ n, v =>
    match v with
    | .int m => toString m
    | .bool b => if b then "True" else "False"
    | .str s => "\x27" ++ s ++ "\x27"
    | .float m => toString m ++ ".0"
    | .none => "None"
    | .removeClass => "<class \x27voluptuous.schema_builder.Remove\x27>"
    | .list vs => "[" ++ pyReprLF n vs ++ "]"
    | .tuple vs => "(" ++ pyReprLF n vs ++ (if vs.length == 1 then ",)" else ")")
    | .set vs => "\x7b" ++ pyReprLF n vs ++ "\x7d"
    | .dict kvs => "\x7b" ++ pyReprKVsF n kvs ++ "\x7d"

def pyReprLF : Nat → List Value → String
  | 0, _ => ""
  | Nat.succ _, [] => ""
  | Nat.succ n, [v] => pyReprF n v
  | Nat.succ n, v :: vs => pyReprF n v ++ ", " ++ pyReprLF n vs

def pyReprKVsF : Nat → List (Value × Value) → String
  | 0, _ => ""
  | Nat.succ _, [] => ""
  | Nat.succ n, [(k, v)] => pyReprF n k ++ ": " ++ pyReprF n v
  | Nat.succ n, (k, v) :: r => pyReprF n k ++ ": " ++ pyReprF n v ++ ", " ++ pyReprKVsF n r

end

/-- Python `repr` of a value. -/
def pyRepr (v : Value) : String :=
  pyReprF (vsize v + 1) v

/-- Python `str` of a value: like `repr` except for strings. -/
def pyStr : Value → String
  | .str s => s
  | v => pyRepr v

/-- `_path_string(path)` from the source:
`' @ data[%s]' % ']['.join(repr(p) for p in path)`, empty for the empty path. -/
def pathString (path : List Value) : String :=
  match path with
  | [] => ""
  | _ => " @ data[" ++ String.intercalate "][" (path.map pyRepr) ++ "]"

/-!  ## The error model (`voluptuous/error.py`)

`Invalid` carries `msg`, `path` and its concrete class; `MultipleInvalid`
is itself an `Invalid` holding a list of errors, whose `msg` is
`str(errors[0])` and whose `path` is `errors[0].path`.  `SchemaError` is
not an `Invalid` and is never caught by the validators. -/

/-- An `Invalid` exception: concrete class name (`kind`), message, path, and
for `MultipleInvalid` the wrapped error list (`sub`, empty otherwise). -/
inductive Inv where
  | mk (kind : String) (msg : String) (path : List Value) (sub : List Inv)

def Inv.kind : Inv → String
  | .mk k _ _ _ => k

def Inv.msg : Inv → String
  | .mk _ m _ _ => m

def Inv.path : Inv → List Value
  | .mk _ _ p _ => p

def Inv.sub : Inv → List Inv
  | .mk _ _ _ s => s

mutual

def isize : Inv → Nat
  | .mk _ _ _ s => 1 + isizeL s
termination_by structural e => e

def isizeL : List Inv → Nat
  | [] => 1
  | e :: es => 1 + isize e + isizeL es
termination_by structural l => l

end

/-- `Invalid.__str__`: message followed by the rendered path (`error_type` is
never set by the schema builder); `MultipleInvalid.__str__` is
`str(errors[0])`. -/
def strOfF : Nat → Inv → String
  | 0, _ => ""
  | Nat.succ n, .mk k m p s =>
    if k == "MultipleInvalid" then
      match s with
      | e :: _ => strOfF n e
      | [] => ""
    else m ++ pathString p

def Inv.strOf (e : Inv) : String :=
  strOfF (isize e + 1) e

/-- `MultipleInvalid(errors)`: msg is `str(errors[0])`, path is `errors[0].path`. -/
def mkMultiple (errs : List Inv) : Inv :=
  .mk "MultipleInvalid"
    (match errs with | e :: _ => e.strOf | [] => "")
    (match errs with | e :: _ => e.path | [] => [])
    errs

/-- The mutation `e.path = path + e.path` performed by
`_compile_scalar.validate_callable` before re-raising (the nested `errors`
of a `MultipleInvalid` are left untouched). -/
def prependPath (p : List Value) : Inv → Inv
  | .mk k m q sub => .mk k m (p ++ q) sub

/-- An exception escaping a validator: either a `SchemaError` (never caught
by the validation machinery) or an `Invalid`. -/
inductive Exc where
  | schemaErr (msg : String)
  | inv (e : Inv)

/-- Result of running a compiled validator on `(path, value)`. -/
abbrev VRes := Except Exc Value

/-- `Schema.__call__`'s exception handling: `MultipleInvalid` is re-raised
as is, any other `Invalid` is wrapped into a one-element `MultipleInvalid`,
anything else (e.g. `SchemaError`) propagates. -/
def normalize (r : VRes) : VRes :=
  match r with
  | .ok v => .ok v
  | .error (.schemaErr m) => .error (.schemaErr m)
  | .error (.inv e) =>
    if e.kind == "MultipleInvalid" then .error (.inv e)
    else .error (.inv (mkMultiple [e]))

/-!  ## The schema tree

A schema node is a Python literal, a type, a list/tuple/set of candidate
validators, a dict whose keys may be markers, the `Extra` function, or a
`Remove` marker used as a sequence candidate.  Marker keys wrap the
concrete key value; `default=` arguments are stored (wrapped by
`default_factory`) on `Required`/`Optional`/`Inclusive`. -/

/-- The `default` slot of `Required`/`Optional`/`Inclusive` after
`default_factory`: the `UNDEFINED` sentinel, a literal value wrapped in a
constant function, or the `list` factory producing a fresh empty list. -/
inductive Default where
  | undef
  | val (v : Value)
  | factoryList

/-- A key of a dict schema: a plain value, a type-pattern key, or a marker
(`Required`, `Optional`, `Exclusive`, `Inclusive`) wrapping a key value. -/
inductive SKey where
  | plain (k : Value)
  | typeKey (t : SType)
  | required (k : Value) (msg : Option String) (default : Default)
  | optional (k : Value) (msg : Option String) (default : Default)
  | exclusive (k : Value) (group : String) (msg : Option String)
  | inclusive (k : Value) (group : String) (msg : Option String) (default : Default)

/-- A schema tree (the fragment of `Schemable` exercised by the claims). -/
inductive STree where
  | lit (v : Value)
  | typ (t : SType)
  | listS (cands : List STree)
  | tupleS (cands : List STree)
  | setS (cands : List STree)
  | dictS (entries : List (SKey × STree))
  | extraFn
  | removeM (s : STree) (msg : Option String)

mutual

/-- Size of a schema tree; used as recursion fuel for validation (every
nested compilation validates a strictly smaller node). -/
def ssize : STree → Nat
  | .lit _ => 1
  | .typ _ => 1
  | .extraFn => 1
  | .removeM w _ => 1 + ssize w
  | .listS cs => 1 + ssizeL cs
  | .tupleS cs => 1 + ssizeL cs
  | .setS cs => 1 + ssizeL cs
  | .dictS es => 1 + ssizeE es
termination_by structural t => t

def ssizeL : List STree → Nat
  | [] => 1
  | c :: cs => 1 + ssize c + ssizeL cs
termination_by structural l => l

def ssizeE : List (SKey × STree) → Nat
  | [] => 1
  | e :: es => 1 + ssize e.2 + ssizeE es
termination_by structural l => l

end

def SKey.isMarker : SKey → Bool
  | .plain _ => false
  | .typeKey _ => false
  | _ => true

def SKey.isRequired : SKey → Bool
  | .required _ _ _ => true
  | _ => false

/-- The wrapped key value for markers, the literal for plain keys
(`Marker.__eq__` compares the wrapped schema, so matching a data key
always goes through this value); `none` for type-pattern keys. -/
def SKey.keyVal : SKey → Option Value
  | .plain k => some k
  | .typeKey _ => Option.none
  | .required k _ _ => some k
  | .optional k _ _ => some k
  | .exclusive k _ _ => some k
  | .inclusive k _ _ _ => some k

/-- The marker's custom message (`key.msg`), if any. -/
def SKey.kmsg : SKey → Option String
  | .required _ m _ => m
  | .optional _ m _ => m
  | .exclusive _ _ m => m
  | .inclusive _ _ m _ => m
  | _ => Option.none

/-- `str(key)`: for markers `str` of the wrapped schema, for a type
`"<class '...'>"`, for plain values `str` of the value. -/
def SKey.strOf : SKey → String
  | .typeKey t => "<class \x27" ++ typeName t ++ "\x27>"
  | .plain k => pyStr k
  | .required k _ _ => pyStr k
  | .optional k _ _ => pyStr k
  | .exclusive k _ _ => pyStr k
  | .inclusive k _ _ _ => pyStr k

/-- `_compile_itemsort`'s sort group: `Required` markers first (0), other
markers next (1), plain keys last (2). -/
def SKey.sortGroup : SKey → Nat
  | .required _ _ _ => 0
  | .optional _ _ _ => 1
  | .exclusive _ _ _ => 1
  | .inclusive _ _ _ _ => 1
  | _ => 2

/-- Python `<` on strings: lexicographic comparison by code point. -/
def chLt (a b : Char) : Bool :=
  Nat.blt a.toNat b.toNat

def clLt : List Char → List Char → Bool
  | [], [] => false
  | [], _ :: _ => true
  | _ :: _, [] => false
  | a :: as_, b :: bs => if chLt a b then true else if chLt b a then false else clLt as_ bs

def strLtB (a b : String) : Bool :=
  clLt a.data b.data

/-- Strict comparison on `_sort_item` keys `(group, str(key))`. -/
def keyLt (a b : SKey) : Bool :=
  Nat.blt a.sortGroup b.sortGroup ||
    (a.sortGroup == b.sortGroup && strLtB a.strOf b.strOf)

/-- Insert before the first strictly greater element (keeps the insertion
stable when combined with a left fold). -/
def insEntry (x : SKey × STree) : List (SKey × STree) → List (SKey × STree)
  | [] => [x]
  | y :: ys => if keyLt x.1 y.1 then x :: y :: ys else y :: insEntry x ys

/-- `_iterate_mapping_candidates`: the schema items sorted (stably) by
`_sort_item`, i.e. the order in which `value_schema` is built and scanned. -/
def sortEntries (l : List (SKey × STree)) : List (SKey × STree) :=
  l.foldl (fun acc x => insEntry x acc) []

/-- `[str(key) for key in key_schema]`: labels of the marker keys.
(`key_schema` only collects `Marker` instances.) -/
def markerNames (entries : List (SKey × STree)) : List String :=
  (entries.filter (fun e => e.1.isMarker)).map (fun e => e.1.strOf)

/-- `len(set(key_names)) != len(key_names)`. -/
def dupMarkerNames (entries : List (SKey × STree)) : Bool :=
  (markerNames entries).dedup.length != (markerNames entries).length

/-- The `SchemaError`-raising part of `Schema._compile` at a single node:
`_compile_mapping`'s duplicate-marker-label check.  Nested nodes are only
compiled lazily, during validation. -/
def checkTopErr : STree → Option String
  | .dictS entries =>
    if dupMarkerNames entries then
      some ("duplicate keys found: [" ++
        String.intercalate ", "
          ((markerNames entries).map (fun s => "\x27" ++ s ++ "\x27")) ++ "]")
    else Option.none
  | _ => Option.none

mutual

/-- `SchemaError`s raised while the schema literal itself is being built
(fuelled; see `markersErr`): every `Remove` marker eagerly compiles its
wrapped schema (`Marker.__init__` runs `Schema(schema_)`), which checks
that schema's top-level node. -/
def markersErrF : Nat → STree → Option String
  | 0, _ => Option.none
  | Nat.succ n, s =>
    match s with
    | .removeM w _ =>
      match checkTopErr w with
      | some m => some m
      | Option.none => markersErrF n w
    | .listS cs => markersErrLF n cs
    | .tupleS cs => markersErrLF n cs
    | .setS cs => markersErrLF n cs
    | .dictS es => markersErrEF n es
    | _ => Option.none

def markersErrLF : Nat → List STree → Option String
  | 0, _ => Option.none
  | Nat.succ _, [] => Option.none
  | Nat.succ n, c :: cs =>
    match markersErrF n c with
    | some m => some m
    | Option.none => markersErrLF n cs

def markersErrEF : Nat → List (SKey × STree) → Option String
  | 0, _ => Option.none
  | Nat.succ _, [] => Option.none
  | Nat.succ n, e :: es =>
    match markersErrF n e.2 with
    | some m => some m
    | Option.none => markersErrEF n es

end

/-- `SchemaError`s raised by the eager marker-internal compilations while
the schema literal is built. -/
def markersErr (s : STree) : Option String :=
  markersErrF (ssize s + 1) s

/-- The `SchemaError` (if any) raised while constructing `Schema(tree)`:
the top-level compile check plus the eager marker-internal compilations. -/
def schemaInitErr (s : STree) : Option String :=
  match checkTopErr s with
  | some m => some m
  | Option.none => markersErr s

/-!  ## The compiled validators

`Schema._compile` dispatches on the node shape.  Sub-schemas of dict and
sequence nodes are compiled again at validation time (`self._compile(...)`
inside `validate_dict` / `validate_sequence`), so a nested `SchemaError`
surfaces during validation and is not caught by the `except er.Invalid`
handlers.  The recursion is implemented with fuel equal to the schema
depth; every recursive call descends into a strictly shallower node. -/

/-- The container kinds `_compile_sequence` is instantiated with. -/
inductive SeqKind where
  | list | tuple | set
deriving DecidableEq

def seqTypeName : SeqKind → String
  | .list => "list"
  | .tuple => "tuple"
  | .set => "set"

/-- `isinstance(data, seq_type)`, and the element view Python iteration
over the input produces. -/
def asKind : SeqKind → Value → Option (List Value)
  | .list, .list vs => some vs
  | .tuple, .tuple vs => some vs
  | .set, .set vs => some vs
  | _, _ => Option.none

def dedupPyAux : List Value → List Value → List Value
  | [], acc => acc.reverse
  | v :: vs, acc => if pyMem v acc then dedupPyAux vs acc else dedupPyAux vs (v :: acc)

/-- `set(result)`: keep the first occurrence of each element (Python set
construction semantics on the fragment). -/
def dedupPy (l : List Value) : List Value :=
  dedupPyAux l []

/-- `seq_type(result)`. -/
def mkContainer : SeqKind → List Value → Value
  | .list, vs => .list vs
  | .tuple, vs => .tuple vs
  | .set, vs => .set (dedupPy vs)

/-- A compiled validator: `(path, value) -> value` with exceptions. -/
abbrev RecV := STree → List Value → Value → VRes

/-- `self._compile(subschema)` followed by invoking the result: the
duplicate-marker check of `_compile_mapping` runs first and its
`SchemaError` propagates uncaught. -/
def applyC (rec : RecV) (s : STree) (p : List Value) (v : Value) : VRes :=
  match checkTopErr s with
  | some m => .error (.schemaErr m)
  | Option.none => rec s p v

/-- The mutable state of `validate_dict`: `out`, `errors`, `seen_keys`
(`seen` stores the wrapped key values; marker hash/eq delegate to the
wrapped schema, so membership is `pyEq` on those values). -/
structure DAcc where
  out : List (Value × Value)
  errs : List Inv
  seen : List Value

/-- First pass of `validate_dict`: the required keys.  A missing key
records `RequiredFieldInvalid(key.msg or 'required key not provided',
path + [key])`; a present key has its value validated with the
(re)compiled value schema, collecting any `Invalid` raised.  `seen_keys`
is extended whenever the key was present. -/
def reqLoop (rec : RecV) (p : List Value) (data : List (Value × Value)) :
    List (SKey × STree) → DAcc → Except String DAcc
  | [], acc => .ok acc
  | (sk, vs) :: rest, acc =>
    match sk.keyVal with
    | Option.none => reqLoop rec p data rest acc
    | some k =>
      match pyLookup data k with
      | Option.none =>
        reqLoop rec p data rest
          { acc with
            errs := acc.errs ++
              [Inv.mk "RequiredFieldInvalid" (sk.kmsg.getD "required key not provided")
                (p ++ [k]) []] }
      | some v =>
        match applyC rec vs (p ++ [k]) v with
        | .ok w =>
          reqLoop rec p data rest
            { acc with out := acc.out ++ [(k, w)], seen := acc.seen ++ [k] }
        | .error (.inv e) =>
          reqLoop rec p data rest
            { acc with errs := acc.errs ++ [e], seen := acc.seen ++ [k] }
        | .error (.schemaErr m) => .error m

/-- The key-matching scan of `validate_dict`'s second pass: the first
schema entry whose key equals the input key (`skey == key`, i.e. `pyEq`
against the wrapped value) or is a type the key is an instance of (in
which case the key is coerced, `key = skey(key)`).  Returns the (possibly
coerced) key together with the value schema. -/
def findEntry (k : Value) : List (SKey × STree) → Option (Value × STree)
  | [] => Option.none
  | (sk, vs) :: rest =>
    match sk.keyVal with
    | some kv => if pyEq kv k then some (k, vs) else findEntry k rest
    | Option.none =>
      match sk with
      | .typeKey t => if isInstance k t then some (coerceKey t k, vs) else findEntry k rest
      | _ => findEntry k rest

/-- Second pass of `validate_dict`: remaining input items in input order.
An unmatched key follows the extra-key policy (`PREVENT_EXTRA = 0`
records a failure at `path + [key]`, `ALLOW_EXTRA = 1` copies the pair,
anything else drops it); a matched key has its value validated with the
recompiled value schema at `path + [key]` (coerced key). -/
def restLoop (rec : RecV) (x : Nat) (p : List Value) (entries : List (SKey × STree)) :
    List (Value × Value) → DAcc → Except String DAcc
  | [], acc => .ok acc
  | (k, v) :: rest, acc =>
    if pyMem k acc.seen then restLoop rec x p entries rest acc
    else
      match findEntry k entries with
      | Option.none =>
        if x == 0 then
          restLoop rec x p entries rest
            { acc with errs := acc.errs ++ [Inv.mk "Invalid" "extra keys not allowed" (p ++ [k]) []] }
        else if x == 1 then
          restLoop rec x p entries rest { acc with out := acc.out ++ [(k, v)] }
        else restLoop rec x p entries rest acc
      | some (k2, vs) =>
        match applyC rec vs (p ++ [k2]) v with
        | .ok w => restLoop rec x p entries rest { acc with out := acc.out ++ [(k2, w)] }
        | .error (.inv e) => restLoop rec x p entries rest { acc with errs := acc.errs ++ [e] }
        | .error (.schemaErr m) => .error m

/-- The candidate loop of `validate_sequence` for one element: candidates
are (re)compiled and tried in schema order; the first success wins, an
`Invalid` moves on to the next candidate, a `SchemaError` propagates. -/
def tryCands (rec : RecV) : List STree → List Value → Value → Except String (Option Value)
  | [], _, _ => .ok Option.none
  | c :: cs, p, v =>
    match applyC rec c p v with
    | .ok w => .ok (some w)
    | .error (.inv _) => tryCands rec cs p v
    | .error (.schemaErr m) => .error m

/-- The element loop of `validate_sequence`: each element is validated at
path `[i] + path` (note the index is prepended in front of the
accumulated path); an element matching no candidate raises immediately,
without looking at later elements. -/
def seqLoop (rec : RecV) (cands : List STree) (p : List Value) :
    Nat → List Value → Except Exc (List Value)
  | _, [] => .ok []
  | i, v :: rest =>
    match tryCands rec cands ([Value.int (Int.ofNat i)] ++ p) v with
    | .error m => .error (.schemaErr m)
    | .ok Option.none => .error (.inv (Inv.mk "Invalid" "not a valid value for sequence item" [] []))
    | .ok (some w) =>
      match seqLoop rec cands p (i + 1) rest with
      | .error e => .error e
      | .ok ws => .ok (w :: ws)

/-- `validate_sequence`: container-kind check, empty-schema check, element
loop, rebuild as the declared container kind. -/
def validateSeqNode (rec : RecV) (kind : SeqKind) (cands : List STree)
    (p : List Value) (v : Value) : VRes :=
  match asKind kind v with
  | Option.none => .error (.inv (Inv.mk "SequenceTypeInvalid" ("expected a " ++ seqTypeName kind) [] []))
  | some data =>
    if cands.isEmpty && !data.isEmpty then
      .error (.inv (Inv.mk "Invalid" "not a valid value" [] []))
    else
      match seqLoop rec cands p 0 data with
      | .error e => .error e
      | .ok ws => .ok (mkContainer kind ws)

/-- `validate_dict` (via `_compile_mapping`): requires a dict, walks the
required keys then the remaining items against the sorted `value_schema`,
and raises `MultipleInvalid(errors)` when any error was collected.
(`required_keys` is a Python set; its iteration order is modelled by the
sorted order, which only affects the ordering of `out` and `errors`.) -/
def validateDictNode (rec : RecV) (x : Nat) (entries : List (SKey × STree))
    (p : List Value) (v : Value) : VRes :=
  match v with
  | .dict data =>
    let sorted := sortEntries entries
    let reqs := sorted.filter (fun e => e.1.isRequired)
    match reqLoop rec p data reqs ⟨[], [], []⟩ with
    | .error m => .error (.schemaErr m)
    | .ok acc1 =>
      match restLoop rec x p sorted data acc1 with
      | .error m => .error (.schemaErr m)
      | .ok acc2 =>
        if acc2.errs.isEmpty then .ok (.dict acc2.out)
        else .error (.inv (mkMultiple acc2.errs))
  | _ => .error (.inv (Inv.mk "DictInvalid" "expected a dictionary" [] []))

/-- The compiled validator tree, with recursion fuel.  `x` is the schema's
extra-key policy (`int(extra)`), shared by nested compilations because
they go through the same `Schema` instance. -/
def validateF : Nat → Nat → STree → List Value → Value → VRes
  | _, 0, _, _, _ => .error (.schemaErr "recursion fuel exhausted")
  | x, Nat.succ n, s, p, v =>
    match s with
    | .lit c =>
      -- `_compile_scalar.validate_value`: equality comparison, returning the data
      if pyEq v c then .ok v
      else .error (.inv (Inv.mk "ScalarInvalid" "not a valid value" [] []))
    | .typ t =>
      -- `_compile_scalar.validate_instance`; the path is baked into the message
      if isInstance v t then .ok v
      else .error (.inv (Inv.mk "TypeInvalid" ("expected " ++ typeName t ++ " for " ++ pathString p) [] []))
    | .extraFn =>
      -- `_compile_scalar.validate_callable` on the function `Extra`,
      -- which returns ALLOW_EXTRA = 1 for any argument
      .ok (.int 1)
    | .removeM w msg =>
      -- `_compile_scalar.validate_callable` on a `Remove` marker:
      -- `Remove.__call__` runs the eagerly-built `Schema(w)` (with the
      -- default PREVENT_EXTRA policy) and returns the class object on
      -- success; `Marker.__call__` substitutes a custom message for
      -- failures at depth <= 1, and `validate_callable` prepends the
      -- current path to the raised error's path
      match normalize (validateF 0 n w [] v) with
      | .ok _ => .ok .removeClass
      | .error (.schemaErr m) => .error (.schemaErr m)
      | .error (.inv e) =>
        let e2 :=
          match msg with
          | some m => if e.path.length > 1 then e else Inv.mk "Invalid" m [] []
          | Option.none => e
        .error (.inv (prependPath p e2))
    | .listS cs => validateSeqNode (validateF x n) .list cs p v
    | .tupleS cs => validateSeqNode (validateF x n) .tuple cs p v
    | .setS cs => validateSeqNode (validateF x n) .set cs p v
    | .dictS es => validateDictNode (validateF x n) x es p v

/-- The validator `Schema.__init__` stores: fuel is the size of the schema
tree, which the recursion never exhausts (each nested compilation
validates a strictly smaller node). -/
def validate (x : Nat) (s : STree) (p : List Value) (v : Value) : VRes :=
  validateF x (ssize s) s p v

/-- `Schema(tree, extra=x)(data)`: construction (which can raise
`SchemaError`) followed by `__call__`, which normalizes any `Invalid`
into a `MultipleInvalid` and starts validation at the empty path. -/
def schemaCall (x : Nat) (s : STree) (v : Value) : VRes :=
  match schemaInitErr s with
  | some m => .error (.schemaErr m)
  | Option.none => normalize (validate x s [] v)

/-!  ## Predicates used in the statements -/

/-- A container value of the given kind with the given elements (the raw
Python input; no deduplication is applied when describing an input). -/
def rawContainer : SeqKind → List Value → Value
  | .list, vs => .list vs
  | .tuple, vs => .tuple vs
  | .set, vs => .set vs

mutual

/-- Well-formed schema: every mapping node anywhere in the tree has
pairwise-distinct marker-key labels, so no `SchemaError` can surface. -/
def wfS : STree → Bool
  | .dictS es => !dupMarkerNames es && wfE es
  | .listS cs => wfL cs
  | .tupleS cs => wfL cs
  | .setS cs => wfL cs
  | .removeM w _ => wfS w
  | _ => true
termination_by structural t => t

def wfL : List STree → Bool
  | [] => true
  | c :: cs => wfS c && wfL cs
termination_by structural l => l

def wfE : List (SKey × STree) → Bool
  | [] => true
  | e :: es => wfS e.2 && wfE es
termination_by structural l => l

end

/-- A key without coercion or defaulting effects: a plain key or an
`Optional`/`Exclusive`/`Inclusive` marker (type-pattern keys coerce the
matched key; `Required` keys reorder the output). -/
def SKey.isPure : SKey → Bool
  | .plain _ => true
  | .optional _ _ _ => true
  | .exclusive _ _ _ => true
  | .inclusive _ _ _ _ => true
  | _ => false

mutual

/-- A schema containing no coercing or transforming validators: only
literals, type checks, sequence nodes and mapping nodes with pure keys
(no `Extra`, no `Remove`, no type-pattern keys, no `Required` markers). -/
def pureS : STree → Bool
  | .lit _ => true
  | .typ _ => true
  | .extraFn => false
  | .removeM _ _ => false
  | .listS cs => pureL cs
  | .tupleS cs => pureL cs
  | .setS cs => pureL cs
  | .dictS es => pureE es
termination_by structural t => t

def pureL : List STree → Bool
  | [] => true
  | c :: cs => pureS c && pureL cs
termination_by structural l => l

def pureE : List (SKey × STree) → Bool
  | [] => true
  | e :: es => e.1.isPure && pureS e.2 && pureE es
termination_by structural l => l

end

/-- No element of the list is `pyEq`-equal to an earlier one (`acc` holds
the earlier elements); mirrors `dedupPyAux`'s accumulator. -/
def noDupPrefix : List Value → List Value → Bool
  | [], _ => true
  | v :: vs, acc => !pyMem v acc && noDupPrefix vs (v :: acc)

mutual

/-- Well-formed (Python-representable) value: every set in it has
`pyEq`-distinct elements, recursively. -/
def wfV : Value → Bool
  | .list vs => wfVL vs
  | .tuple vs => wfVL vs
  | .set vs => noDupPrefix vs [] && wfVL vs
  | .dict kvs => wfVKV kvs
  | _ => true
termination_by structural v => v

def wfVL : List Value → Bool
  | [] => true
  | v :: vs => wfV v && wfVL vs
termination_by structural l => l

def wfVKV : List (Value × Value) → Bool
  | [] => true
  | (k, v) :: r => wfV k && wfV v && wfVKV r
termination_by structural l => l

end

/-- The sequence node of the given container kind. -/
def seqNode : SeqKind → List STree → STree
  | .list, cs => .listS cs
  | .tuple, cs => .tupleS cs
  | .set, cs => .setS cs

/-!  ## Theorems -/

/-!  ### Well-formed schemas never raise `SchemaError` -/

theorem ssize_pos : ∀ s : STree, 1 ≤ ssize s := by
  intro s
  cases s <;> simp [ssize]

theorem mem_insEntry {y x : SKey × STree} :
    ∀ {l : List (SKey × STree)}, y ∈ insEntry x l → y = x ∨ y ∈ l := by
  intro l
  induction l with
  | nil =>
    intro h
    simp only [insEntry, List.mem_singleton] at h
    exact Or.inl h
  | cons z zs ih =>
    intro h
    simp only [insEntry] at h
    split at h
    · rcases List.mem_cons.mp h with h | h
      · exact Or.inl h
      · exact Or.inr h
    · rcases List.mem_cons.mp h with h | h
      · exact Or.inr (by rw [h]; exact List.mem_cons_self z zs)
      · rcases ih h with h | h
        · exact Or.inl h
        · exact Or.inr (List.mem_cons_of_mem z h)

theorem mem_sortEntries {y : SKey × STree} {l : List (SKey × STree)}
    (h : y ∈ sortEntries l) : y ∈ l := by
  suffices H : ∀ (l acc : List (SKey × STree)),
      y ∈ List.foldl (fun acc x => insEntry x acc) acc l → y ∈ acc ∨ y ∈ l by
    rcases H l [] h with h | h
    · cases h
    · exact h
  intro l
  induction l with
  | nil => intro acc h; exact Or.inl h
  | cons z zs ih =>
    intro acc h
    rcases ih (insEntry z acc) h with h | h
    · rcases mem_insEntry h with h | h
      · exact Or.inr (h ▸ List.mem_cons_self z zs)
      · exact Or.inl h
    · exact Or.inr (List.mem_cons_of_mem z h)

theorem ssizeE_mem {e : SKey × STree} :
    ∀ {es : List (SKey × STree)}, e ∈ es → ssize e.2 < ssizeE es := by
  intro es
  induction es with
  | nil => intro h; cases h
  | cons z zs ih =>
    intro h
    rcases List.mem_cons.mp h with h | h
    · subst h; simp [ssizeE]; omega
    · have := ih h
      simp [ssizeE]
      have := ssize_pos z.2
      omega

theorem ssizeL_mem {c : STree} :
    ∀ {cs : List STree}, c ∈ cs → ssize c < ssizeL cs := by
  intro cs
  induction cs with
  | nil => intro h; cases h
  | cons z zs ih =>
    intro h
    rcases List.mem_cons.mp h with h | h
    · subst h; simp [ssizeL]; omega
    · have := ih h
      simp [ssizeL]
      have := ssize_pos z
      omega

theorem wfE_mem {e : SKey × STree} :
    ∀ {es : List (SKey × STree)}, wfE es = true → e ∈ es → wfS e.2 = true := by
  intro es
  induction es with
  | nil => intro _ h; cases h
  | cons z zs ih =>
    intro hwf h
    simp only [wfE, Bool.and_eq_true] at hwf
    rcases List.mem_cons.mp h with h | h
    · subst h; exact hwf.1
    · exact ih hwf.2 h

theorem wfL_mem {c : STree} :
    ∀ {cs : List STree}, wfL cs = true → c ∈ cs → wfS c = true := by
  intro cs
  induction cs with
  | nil => intro _ h; cases h
  | cons z zs ih =>
    intro hwf h
    simp only [wfL, Bool.and_eq_true] at hwf
    rcases List.mem_cons.mp h with h | h
    · subst h; exact hwf.1
    · exact ih hwf.2 h

theorem wf_checkTop {s : STree} (h : wfS s = true) : checkTopErr s = Option.none := by
  cases s <;> simp [checkTopErr]
  case dictS es =>
    simp only [wfS, Bool.and_eq_true, Bool.not_eq_eq_eq_not, Bool.not_true] at h
    simp [h.1]

theorem markersErrF_none :
    ∀ n : Nat,
      (∀ s : STree, wfS s = true → markersErrF n s = Option.none) ∧
      (∀ cs : List STree, wfL cs = true → markersErrLF n cs = Option.none) ∧
      (∀ es : List (SKey × STree), wfE es = true → markersErrEF n es = Option.none) := by
  intro n
  induction n with
  | zero => exact ⟨fun _ _ => rfl, fun _ _ => rfl, fun _ _ => rfl⟩
  | succ n ih =>
    refine ⟨?_, ?_, ?_⟩
    · intro s hwf
      cases s with
      | removeM w msg =>
        have hw : wfS w = true := by simpa [wfS] using hwf
        simp [markersErrF, wf_checkTop hw, ih.1 w hw]
      | listS cs => simpa [markersErrF] using ih.2.1 cs (by simpa [wfS] using hwf)
      | tupleS cs => simpa [markersErrF] using ih.2.1 cs (by simpa [wfS] using hwf)
      | setS cs => simpa [markersErrF] using ih.2.1 cs (by simpa [wfS] using hwf)
      | dictS es =>
        have h : wfE es = true := by
          simp only [wfS, Bool.and_eq_true] at hwf
          exact hwf.2
        simpa [markersErrF] using ih.2.2 es h
      | lit v => rfl
      | typ t => rfl
      | extraFn => rfl
    · intro cs hwf
      cases cs with
      | nil => rfl
      | cons c cs =>
        simp only [wfL, Bool.and_eq_true] at hwf
        simp [markersErrLF, ih.1 c hwf.1, ih.2.1 cs hwf.2]
    · intro es hwf
      cases es with
      | nil => rfl
      | cons e es =>
        simp only [wfE, Bool.and_eq_true] at hwf
        simp [markersErrEF, ih.1 e.2 hwf.1, ih.2.2 es hwf.2]

theorem schemaInitErr_none {s : STree} (h : wfS s = true) :
    schemaInitErr s = Option.none := by
  unfold schemaInitErr
  rw [wf_checkTop h]
  exact (markersErrF_none (ssize s + 1)).1 s h

theorem tryCands_no_schemaErr {rec : RecV} :
    ∀ {cs : List STree},
      (∀ c ∈ cs, ∀ (p : List Value) (v : Value) (m : String),
        applyC rec c p v ≠ .error (.schemaErr m)) →
      ∀ (p : List Value) (v : Value) (m : String), tryCands rec cs p v ≠ .error m := by
  intro cs
  induction cs with
  | nil => intro _ p v m h; simp [tryCands] at h
  | cons c cs ih =>
    intro hg p v m h
    simp only [tryCands] at h
    cases hac : applyC rec c p v with
    | ok w => rw [hac] at h; simp at h
    | error e =>
      cases e with
      | schemaErr m2 => exact hg c (List.mem_cons_self c cs) p v m2 hac
      | inv e2 =>
        rw [hac] at h
        exact ih (fun c2 hc => hg c2 (List.mem_cons_of_mem _ hc)) p v m h

theorem seqLoop_no_schemaErr {rec : RecV} {cs : List STree}
    (hg : ∀ c ∈ cs, ∀ (p : List Value) (v : Value) (m : String),
      applyC rec c p v ≠ .error (.schemaErr m)) :
    ∀ (data p : List Value) (i : Nat) (m : String),
      seqLoop rec cs p i data ≠ .error (.schemaErr m) := by
  intro data
  induction data with
  | nil => intro p i m h; simp [seqLoop] at h
  | cons v rest ih =>
    intro p i m h
    simp only [seqLoop] at h
    cases htc : tryCands rec cs ([Value.int (Int.ofNat i)] ++ p) v with
    | error m2 => exact tryCands_no_schemaErr hg _ _ m2 htc
    | ok o =>
      rw [htc] at h
      cases o with
      | none => simp at h
      | some w =>
        cases hsl : seqLoop rec cs p (i + 1) rest with
        | error e =>
          rw [hsl] at h
          have he : e = .schemaErr m := by
            simpa using h
          exact ih p (i + 1) m (he ▸ hsl)
        | ok ws => rw [hsl] at h; simp at h

theorem reqLoop_no_err {rec : RecV} {p : List Value} {data : List (Value × Value)} :
    ∀ {rl : List (SKey × STree)},
      (∀ e ∈ rl, ∀ (p2 : List Value) (v : Value) (m : String),
        applyC rec e.2 p2 v ≠ .error (.schemaErr m)) →
      ∀ (acc : DAcc) (m : String), reqLoop rec p data rl acc ≠ .error m := by
  intro rl
  induction rl with
  | nil => intro _ acc m h; simp [reqLoop] at h
  | cons e rl ih =>
    intro hg acc m h
    obtain ⟨sk, vs⟩ := e
    cases hkv : sk.keyVal with
    | none =>
      simp only [reqLoop, hkv] at h
      exact ih (fun e2 he => hg e2 (List.mem_cons_of_mem _ he)) acc m h
    | some k =>
      cases hlk : pyLookup data k with
      | none =>
        simp only [reqLoop, hkv, hlk] at h
        exact ih (fun e2 he => hg e2 (List.mem_cons_of_mem _ he)) _ m h
      | some v =>
        cases hac : applyC rec vs (p ++ [k]) v with
        | ok w =>
          simp only [reqLoop, hkv, hlk, hac] at h
          exact ih (fun e2 he => hg e2 (List.mem_cons_of_mem _ he)) _ m h
        | error exc =>
          cases exc with
          | schemaErr m2 => exact hg (sk, vs) (List.mem_cons_self _ _) (p ++ [k]) v m2 hac
          | inv e2 =>
            simp only [reqLoop, hkv, hlk, hac] at h
            exact ih (fun e2 he => hg e2 (List.mem_cons_of_mem _ he)) _ m h

theorem findEntry_mem {k : Value} :
    ∀ {entries : List (SKey × STree)} {k2 : Value} {vs : STree},
      findEntry k entries = some (k2, vs) → ∃ sk, (sk, vs) ∈ entries := by
  intro entries
  induction entries with
  | nil => intro k2 vs h; simp [findEntry] at h
  | cons e rest ih =>
    intro k2 vs h
    obtain ⟨sk, v⟩ := e
    cases sk with
    | typeKey t =>
      simp only [findEntry, SKey.keyVal] at h
      split at h
      · have := Option.some.inj h
        have hv : v = vs := congrArg Prod.snd this
        exact ⟨.typeKey t, hv ▸ List.mem_cons_self _ _⟩
      · rcases ih h with ⟨sk2, hm⟩
        exact ⟨sk2, List.mem_cons_of_mem _ hm⟩
    | plain kv =>
      simp only [findEntry, SKey.keyVal] at h
      split at h
      · have := Option.some.inj h
        have hv : v = vs := congrArg Prod.snd this
        exact ⟨.plain kv, hv ▸ List.mem_cons_self _ _⟩
      · rcases ih h with ⟨sk2, hm⟩
        exact ⟨sk2, List.mem_cons_of_mem _ hm⟩
    | required kv msg d =>
      simp only [findEntry, SKey.keyVal] at h
      split at h
      · have := Option.some.inj h
        have hv : v = vs := congrArg Prod.snd this
        exact ⟨.required kv msg d, hv ▸ List.mem_cons_self _ _⟩
      · rcases ih h with ⟨sk2, hm⟩
        exact ⟨sk2, List.mem_cons_of_mem _ hm⟩
    | optional kv msg d =>
      simp only [findEntry, SKey.keyVal] at h
      split at h
      · have := Option.some.inj h
        have hv : v = vs := congrArg Prod.snd this
        exact ⟨.optional kv msg d, hv ▸ List.mem_cons_self _ _⟩
      · rcases ih h with ⟨sk2, hm⟩
        exact ⟨sk2, List.mem_cons_of_mem _ hm⟩
    | exclusive kv g msg =>
      simp only [findEntry, SKey.keyVal] at h
      split at h
      · have := Option.some.inj h
        have hv : v = vs := congrArg Prod.snd this
        exact ⟨.exclusive kv g msg, hv ▸ List.mem_cons_self _ _⟩
      · rcases ih h with ⟨sk2, hm⟩
        exact ⟨sk2, List.mem_cons_of_mem _ hm⟩
    | inclusive kv g msg d =>
      simp only [findEntry, SKey.keyVal] at h
      split at h
      · have := Option.some.inj h
        have hv : v = vs := congrArg Prod.snd this
        exact ⟨.inclusive kv g msg d, hv ▸ List.mem_cons_self _ _⟩
      · rcases ih h with ⟨sk2, hm⟩
        exact ⟨sk2, List.mem_cons_of_mem _ hm⟩

theorem restLoop_no_err {rec : RecV} {x : Nat} {p : List Value}
    {entries : List (SKey × STree)}
    (hg : ∀ e ∈ entries, ∀ (p2 : List Value) (v : Value) (m : String),
      applyC rec e.2 p2 v ≠ .error (.schemaErr m)) :
    ∀ (data : List (Value × Value)) (acc : DAcc) (m : String),
      restLoop rec x p entries data acc ≠ .error m := by
  intro data
  induction data with
  | nil => intro acc m h; simp [restLoop] at h
  | cons kv rest ih =>
    intro acc m h
    obtain ⟨k, v⟩ := kv
    cases hsm : pyMem k acc.seen with
    | true =>
      simp only [restLoop, hsm, if_true] at h
      exact ih acc m h
    | false =>
      cases hfe : findEntry k entries with
      | none =>
        simp only [restLoop, hsm, hfe, Bool.false_eq_true, if_false] at h
        split at h
        · exact ih _ m h
        · split at h
          · exact ih _ m h
          · exact ih _ m h
      | some kvs =>
        obtain ⟨k2, vs⟩ := kvs
        rcases findEntry_mem hfe with ⟨sk, hm⟩
        cases hac : applyC rec vs (p ++ [k2]) v with
        | ok w =>
          simp only [restLoop, hsm, hfe, Bool.false_eq_true, if_false, hac] at h
          exact ih _ m h
        | error exc =>
          cases exc with
          | schemaErr m2 => exact hg (sk, vs) hm (p ++ [k2]) v m2 hac
          | inv e2 =>
            simp only [restLoop, hsm, hfe, Bool.false_eq_true, if_false, hac] at h
            exact ih _ m h

theorem validateSeqNode_no_schemaErr {rec : RecV} {kind : SeqKind} {cs : List STree}
    (hg : ∀ c ∈ cs, ∀ (p : List Value) (v : Value) (m : String),
      applyC rec c p v ≠ .error (.schemaErr m)) :
    ∀ (p : List Value) (v : Value) (m : String),
      validateSeqNode rec kind cs p v ≠ .error (.schemaErr m) := by
  intro p v m h
  cases hak : asKind kind v with
  | none =>
    simp only [validateSeqNode, hak] at h
    simp at h
  | some data =>
    cases hemp : cs.isEmpty && !data.isEmpty with
    | true =>
      simp only [validateSeqNode, hak, hemp, if_true] at h
      simp at h
    | false =>
      cases hsl : seqLoop rec cs p 0 data with
      | error e =>
        cases e with
        | schemaErr m2 => exact seqLoop_no_schemaErr hg data p 0 m2 hsl
        | inv e2 =>
          simp only [validateSeqNode, hak, hemp, Bool.false_eq_true, if_false, hsl] at h
          simp at h
      | ok ws =>
        simp only [validateSeqNode, hak, hemp, Bool.false_eq_true, if_false, hsl] at h
        simp at h

theorem validateDictNode_no_schemaErr {rec : RecV} {x : Nat} {es : List (SKey × STree)}
    (hg : ∀ e ∈ sortEntries es, ∀ (p2 : List Value) (v : Value) (m : String),
      applyC rec e.2 p2 v ≠ .error (.schemaErr m)) :
    ∀ (p : List Value) (v : Value) (m : String),
      validateDictNode rec x es p v ≠ .error (.schemaErr m) := by
  intro p v m h
  cases v with
  | dict data =>
    cases hrq : reqLoop rec p data ((sortEntries es).filter (fun e => e.1.isRequired)) ⟨[], [], []⟩ with
    | error m2 =>
      refine reqLoop_no_err ?_ _ m2 hrq
      intro e he
      exact hg e (List.mem_filter.mp he).1
    | ok acc1 =>
      cases hrl : restLoop rec x p (sortEntries es) data acc1 with
      | error m2 => exact restLoop_no_err hg data acc1 m2 hrl
      | ok acc2 =>
        simp only [validateDictNode, hrq, hrl] at h
        split at h <;> simp at h
  | int n => simp [validateDictNode] at h
  | bool b => simp [validateDictNode] at h
  | str t => simp [validateDictNode] at h
  | float n => simp [validateDictNode] at h
  | none => simp [validateDictNode] at h
  | removeClass => simp [validateDictNode] at h
  | list vs => simp [validateDictNode] at h
  | tuple vs => simp [validateDictNode] at h
  | set vs => simp [validateDictNode] at h

theorem validateF_no_schemaErr :
    ∀ (n x : Nat) (s : STree) (p : List Value) (v : Value),
      wfS s = true → ssize s ≤ n →
      ∀ m, validateF x n s p v ≠ .error (.schemaErr m) := by
  intro n
  induction n with
  | zero =>
    intro x s p v _ hs m _
    have := ssize_pos s
    omega
  | succ n ih =>
    intro x s p v hwf hs m h
    cases s with
    | lit c =>
      simp only [validateF] at h
      split at h <;> simp at h
    | typ t =>
      simp only [validateF] at h
      split at h <;> simp at h
    | extraFn =>
      simp only [validateF] at h
      simp at h
    | removeM w msg =>
      have hw : wfS w = true := by simpa [wfS] using hwf
      have hsw : ssize w ≤ n := by simp only [ssize] at hs; omega
      cases hr : validateF 0 n w [] v with
      | ok u =>
        simp only [validateF, hr, normalize] at h
        simp at h
      | error e =>
        cases e with
        | schemaErr m2 => exact ih 0 w [] v hw hsw m2 hr
        | inv e2 =>
          cases hk : e2.kind == "MultipleInvalid" with
          | true =>
            simp only [validateF, hr, normalize, hk, if_true] at h
            simp at h
          | false =>
            simp only [validateF, hr, normalize, hk, Bool.false_eq_true, if_false] at h
            simp at h
    | listS cs =>
      have hwl : wfL cs = true := by simpa [wfS] using hwf
      have hsl : ssizeL cs ≤ n := by simp only [ssize] at hs; omega
      refine validateSeqNode_no_schemaErr ?_ p v m (by simpa [validateF] using h)
      intro c hc p2 v2 m2 hac
      have hwc := wfL_mem hwl hc
      have hsc : ssize c ≤ n := le_of_lt (lt_of_lt_of_le (ssizeL_mem hc) hsl)
      simp only [applyC, wf_checkTop hwc] at hac
      exact ih x c p2 v2 hwc hsc m2 hac
    | tupleS cs =>
      have hwl : wfL cs = true := by simpa [wfS] using hwf
      have hsl : ssizeL cs ≤ n := by simp only [ssize] at hs; omega
      refine validateSeqNode_no_schemaErr ?_ p v m (by simpa [validateF] using h)
      intro c hc p2 v2 m2 hac
      have hwc := wfL_mem hwl hc
      have hsc : ssize c ≤ n := le_of_lt (lt_of_lt_of_le (ssizeL_mem hc) hsl)
      simp only [applyC, wf_checkTop hwc] at hac
      exact ih x c p2 v2 hwc hsc m2 hac
    | setS cs =>
      have hwl : wfL cs = true := by simpa [wfS] using hwf
      have hsl : ssizeL cs ≤ n := by simp only [ssize] at hs; omega
      refine validateSeqNode_no_schemaErr ?_ p v m (by simpa [validateF] using h)
      intro c hc p2 v2 m2 hac
      have hwc := wfL_mem hwl hc
      have hsc : ssize c ≤ n := le_of_lt (lt_of_lt_of_le (ssizeL_mem hc) hsl)
      simp only [applyC, wf_checkTop hwc] at hac
      exact ih x c p2 v2 hwc hsc m2 hac
    | dictS es =>
      have hwe : wfE es = true := by
        simp only [wfS, Bool.and_eq_true] at hwf
        exact hwf.2
      have hse : ssizeE es ≤ n := by simp only [ssize] at hs; omega
      refine validateDictNode_no_schemaErr ?_ p v m (by simpa [validateF] using h)
      intro e he p2 v2 m2 hac
      have he2 := mem_sortEntries he
      have hwc := wfE_mem hwe he2
      have hsc : ssize e.2 ≤ n := le_of_lt (lt_of_lt_of_le (ssizeE_mem he2) hse)
      simp only [applyC, wf_checkTop hwc] at hac
      exact ih x e.2 p2 v2 hwc hsc m2 hac

/-!  ### Pure schemas act as the identity on accepted well-formed inputs -/

/-- C1: the claim asserts that a `Required`/`Optional`/`Inclusive` key with
a declared default has the default inserted when the key is absent.  The
code never consults the stored defaults: `Schema({Optional('key',
default='value'): str})({})` returns `{}` (not `{'key': 'value'}` as the
`Optional` docstring promises), `Required('key', default='value')` fails
with "required key not provided" instead of inserting the default, and an
`Inclusive` default is likewise ignored. -/
theorem optional_default_not_inserted :
    schemaCall 0 (.dictS [(.optional (.str "key") Option.none (.val (.str "value")), .typ .str)])
        (.dict []) = .ok (.dict []) ∧
    schemaCall 0 (.dictS [(.required (.str "key") Option.none (.val (.str "value")), .typ .str)])
        (.dict []) =
      .error (.inv (mkMultiple [Inv.mk "RequiredFieldInvalid" "required key not provided" [.str "key"] []])) ∧
    schemaCall 0 (.dictS [(.inclusive (.str "key") "g" Option.none (.val (.str "value")), .typ .str)])
        (.dict []) = .ok (.dict []) :=
  ⟨rfl, rfl, rfl⟩

/-- C2: the claim asserts exclusion/inclusion groups are evaluated after
the per-key pass.  The code performs no group bookkeeping at all: for
`{Exclusive(alpha,"angles"): int, Exclusive(beta,"angles"): int}` the
input `{alpha:30, beta:45}` validates successfully (the docstring promises
a group failure at `[<angles>]`), and for an inclusion group `{h:1}` with
a two-member group "s" also validates successfully. -/
theorem exclusion_group_not_enforced :
    schemaCall 0 (.dictS [(.exclusive (.str "alpha") "angles" Option.none, .typ .int),
        (.exclusive (.str "beta") "angles" Option.none, .typ .int)])
        (.dict [(.str "alpha", .int 30)]) = .ok (.dict [(.str "alpha", .int 30)]) ∧
    schemaCall 0 (.dictS [(.exclusive (.str "alpha") "angles" Option.none, .typ .int),
        (.exclusive (.str "beta") "angles" Option.none, .typ .int)])
        (.dict [(.str "alpha", .int 30), (.str "beta", .int 45)]) =
      .ok (.dict [(.str "alpha", .int 30), (.str "beta", .int 45)]) ∧
    schemaCall 0 (.dictS [(.exclusive (.str "alpha") "angles" Option.none, .typ .int),
        (.exclusive (.str "beta") "angles" Option.none, .typ .int)])
        (.dict []) = .ok (.dict []) ∧
    schemaCall 0 (.dictS [(.inclusive (.str "h") "s" Option.none .undef, .typ .int),
        (.inclusive (.str "w") "s" Option.none .undef, .typ .int)])
        (.dict [(.str "h", .int 1)]) = .ok (.dict [(.str "h", .int 1)]) :=
  ⟨rfl, rfl, rfl, rfl⟩

/-- C3: the claim asserts `{a: [{b: int}]}` on `{a: [{b: "x"}]}` fails
with path exactly `[a, 0, b]`.  In the code the inner `TypeInvalid`
carries no path attribute (the path is only interpolated into its
message), `validate_sequence` swallows it and raises a fresh pathless
`Invalid('not a valid value for sequence item')`, and the enclosing dict
wraps that, so the propagated failure's path is `[]`, not `[a, 0, b]`. -/
theorem nested_failure_path_empty :
    schemaCall 0 (.dictS [(.plain (.str "a"), .listS [.dictS [(.plain (.str "b"), .typ .int)]])])
        (.dict [(.str "a", .list [.dict [(.str "b", .str "x")]])]) =
      .error (.inv (Inv.mk "MultipleInvalid" "not a valid value for sequence item" []
        [Inv.mk "Invalid" "not a valid value for sequence item" [] []])) ∧
    (Inv.mk "MultipleInvalid" "not a valid value for sequence item" []
        [Inv.mk "Invalid" "not a valid value for sequence item" [] []]).path = [] ∧
    (Inv.mk "MultipleInvalid" "not a valid value for sequence item" []
        [Inv.mk "Invalid" "not a valid value for sequence item" [] []]).path ≠
      [.str "a", .int 0, .str "b"] :=
  ⟨rfl, rfl, by intro h; exact absurd h (by simp [Inv.path])⟩

/-- C5: extra-key policies on `{a: str}` applied to `{a: "x", b: v}` for
any value `v` of the unmatched key `b`: `PREVENT_EXTRA` records a failure
at path `[b]`, `ALLOW_EXTRA` passes the pair through unchanged,
`REMOVE_EXTRA` silently drops it. -/
theorem extra_policy_behavior :
    ∀ vb : Value,
      schemaCall 0 (.dictS [(.plain (.str "a"), .typ .str)])
          (.dict [(.str "a", .str "x"), (.str "b", vb)]) =
        .error (.inv (mkMultiple [Inv.mk "Invalid" "extra keys not allowed" [.str "b"] []])) ∧
      schemaCall 1 (.dictS [(.plain (.str "a"), .typ .str)])
          (.dict [(.str "a", .str "x"), (.str "b", vb)]) =
        .ok (.dict [(.str "a", .str "x"), (.str "b", vb)]) ∧
      schemaCall 2 (.dictS [(.plain (.str "a"), .typ .str)])
          (.dict [(.str "a", .str "x"), (.str "b", vb)]) =
        .ok (.dict [(.str "a", .str "x")]) :=
  fun _ => ⟨rfl, rfl, rfl⟩

/-- C7: the claim asserts `Schema([int, Remove(float), Extra])` on
`[1, 2, 3, 4.0, 5, 6.0, '7']` returns `[1, 2, 3, 5, '7']` (the `Remove`
docstring's doctest).  The code appends whatever the matching candidate
returned: `Remove.__call__` returns the class object `Remove`, and the
bare `Extra` function returns `ALLOW_EXTRA = 1`, so the result is
`[1, 2, 3, Remove, 5, Remove, 1]` — removed elements are not excluded. -/
theorem remove_class_left_in_output :
    schemaCall 0 (.listS [.typ .int, .removeM (.typ .float) Option.none, .extraFn])
        (.list [.int 1, .int 2, .int 3, .float 4, .int 5, .float 6, .str "7"]) =
      .ok (.list [.int 1, .int 2, .int 3, .removeClass, .int 5, .removeClass, .int 1]) :=
  rfl

/-- C10: the schema built from an empty sequence literal of any container
kind accepts exactly the empty input of that kind (returning an empty
container of the kind) and fails on any non-empty input of that kind. -/
theorem empty_sequence_schema :
    ∀ (x : Nat) (kind : SeqKind) (vs : List Value),
      schemaCall x (seqNode kind []) (rawContainer kind vs) =
        match vs with
        | [] => .ok (rawContainer kind [])
        | _ :: _ => .error (.inv (mkMultiple [Inv.mk "Invalid" "not a valid value" [] []])) := by
  intro x kind vs
  cases kind <;> cases vs <;> rfl

/-- C6: mapping validation collects one failure per bad key over the whole
input before raising a single aggregate (here: both values bad gives a
two-element `MultipleInvalid`), whereas sequence validation raises
immediately on the first element matching no candidate, for every
continuation `rest` of the input — later elements are never examined. -/
theorem dict_aggregates_seq_failfast :
    (∀ va vb : Value, isInstance va .int = false → isInstance vb .int = false →
      schemaCall 0 (.dictS [(.plain (.str "a"), .typ .int), (.plain (.str "b"), .typ .int)])
          (.dict [(.str "a", va), (.str "b", vb)]) =
        .error (.inv (mkMultiple
          [Inv.mk "TypeInvalid" "expected int for  @ data[\x27a\x27]" [] [],
           Inv.mk "TypeInvalid" "expected int for  @ data[\x27b\x27]" [] []]))) ∧
    (∀ (v : Value) (rest : List Value), isInstance v .int = false →
      schemaCall 0 (.listS [.typ .int]) (.list (v :: rest)) =
        .error (.inv (mkMultiple [Inv.mk "Invalid" "not a valid value for sequence item" [] []]))) := by
  constructor
  · intro va vb h1 h2
    show normalize (validateF 0 6 (.dictS [(.plain (.str "a"), .typ .int),
      (.plain (.str "b"), .typ .int)]) [] (.dict [(.str "a", va), (.str "b", vb)])) = _
    simp [validateF, validateDictNode, reqLoop, restLoop, findEntry, applyC, checkTopErr,
      sortEntries, insEntry, keyLt, SKey.sortGroup, SKey.strOf, SKey.keyVal, SKey.isRequired,
      strLtB, clLt, chLt, pyStr, pyRepr, pyReprF, normalize, mkMultiple, Inv.kind, Inv.path,
      Inv.strOf, strOfF, isize, isizeL, pathString, pyMem, pyMemF, pyEq, pyEqF, pyEqLF,
      toIntQ, vsize, vsizeL, vsizeKV, dupMarkerNames, markerNames, Nat.blt, h1, h2]
    exact ⟨rfl, rfl⟩
  · intro v rest h
    show normalize (validateF 0 4 (.listS [.typ .int]) [] (.list (v :: rest))) = _
    simp [validateF, validateSeqNode, seqLoop, tryCands, applyC, checkTopErr, normalize,
      mkMultiple, Inv.kind, Inv.path, Inv.strOf, strOfF, isize, isizeL, pathString,
      asKind, h]

/-- Witness for `dict_aggregates_seq_failfast`. -/
theorem dict_aggregates_seq_failfast_witness :
    isInstance (.str "x") .int = false ∧ isInstance (.str "y") .int = false ∧
    schemaCall 0 (.dictS [(.plain (.str "a"), .typ .int), (.plain (.str "b"), .typ .int)])
        (.dict [(.str "a", .str "x"), (.str "b", .str "y")]) =
      .error (.inv (mkMultiple
        [Inv.mk "TypeInvalid" "expected int for  @ data[\x27a\x27]" [] [],
         Inv.mk "TypeInvalid" "expected int for  @ data[\x27b\x27]" [] []])) ∧
    schemaCall 0 (.listS [.typ .int]) (.list [.str "x", .int 7]) =
      .error (.inv (mkMultiple [Inv.mk "Invalid" "not a valid value for sequence item" [] []])) :=
  ⟨rfl, rfl,
    (dict_aggregates_seq_failfast.1 (.str "x") (.str "y") rfl rfl),
    (dict_aggregates_seq_failfast.2 (.str "x") [.int 7] rfl)⟩

/-- C4 (amended): for every schema all of whose mapping nodes (at any
depth) have pairwise-distinct marker-key labels, invoking the schema on
any input either returns the transformed value or raises the aggregate
failure kind `MultipleInvalid` — always the aggregate kind, even for a
single underlying failure — and validation starts at the empty path
(`schemaCall` runs the compiled tree on `[]`).  Without that proviso a
nested `SchemaError` can escape from the invocation, because this
implementation compiles nested nodes during validation. -/
theorem wellformed_call_aggregates :
    ∀ (x : Nat) (s : STree) (v : Value), wfS s = true →
      (∃ w, schemaCall x s v = .ok w) ∨
      (∃ e, schemaCall x s v = .error (.inv e) ∧ e.kind = "MultipleInvalid") := by
  intro x s v hwf
  have hinit := schemaInitErr_none hwf
  cases hr : validate x s [] v with
  | ok w =>
    left
    exact ⟨w, by simp only [schemaCall, hinit, hr, normalize]⟩
  | error e =>
    cases e with
    | schemaErr m =>
      exact absurd hr (validateF_no_schemaErr (ssize s) x s [] v hwf le_rfl m)
    | inv e2 =>
      right
      cases hk : e2.kind == "MultipleInvalid" with
      | true =>
        refine ⟨e2, ?_, by simpa using hk⟩
        simp only [schemaCall, hinit, hr, normalize, hk, if_true]
      | false =>
        refine ⟨mkMultiple [e2], ?_, rfl⟩
        simp only [schemaCall, hinit, hr, normalize, hk, Bool.false_eq_true, if_false]

/-- Witness for `wellformed_call_aggregates`. -/
theorem wellformed_call_aggregates_witness :
    wfS (.typ .int) = true ∧
    ((∃ w, schemaCall 0 (.typ .int) (.str "q") = .ok w) ∨
     (∃ e, schemaCall 0 (.typ .int) (.str "q") = .error (.inv e) ∧ e.kind = "MultipleInvalid")) :=
  ⟨rfl, wellformed_call_aggregates 0 (.typ .int) (.str "q") rfl⟩

/-- C4 counterexample: nested schema nodes are compiled during validation,
so a nested mapping with duplicate marker labels raises a `SchemaError`
(not a `MultipleInvalid`) from the invocation itself. -/
theorem nested_schema_error_escapes :
    schemaCall 0 (.dictS [(.plain (.str "a"),
        .dictS [(.required (.int 1) Option.none .undef, .typ .int),
          (.required (.str "1") Option.none .undef, .typ .int)])])
        (.dict [(.str "a", .int 0)]) =
      .error (.schemaErr "duplicate keys found: [\x271\x27, \x271\x27]") :=
  rfl

/-- C8 counterexample: the duplicate-label check only covers marker keys.
The plain keys `1` and `'1'` have the same string representation, yet
construction succeeds and the schema even validates data. -/
theorem plain_label_collision_unchecked :
    schemaInitErr (.dictS [(.plain (.int 1), .typ .int), (.plain (.str "1"), .typ .str)]) =
      Option.none ∧
    SKey.strOf (.plain (.int 1)) = SKey.strOf (.plain (.str "1")) ∧
    schemaCall 0 (.dictS [(.plain (.int 1), .typ .int), (.plain (.str "1"), .typ .str)])
        (.dict [(.int 1, .int 5), (.str "1", .str "x")]) =
      .ok (.dict [(.int 1, .int 5), (.str "1", .str "x")]) :=
  ⟨rfl, rfl, rfl⟩

/-- C8 (amended): only marker-tagged key labels are checked.  When the
marker keys of a mapping schema do not have pairwise-distinct string
representations, construction itself raises `SchemaError`, for every
input and extra policy — before any data is validated. -/
theorem marker_label_duplicates_error :
    ∀ (entries : List (SKey × STree)) (x : Nat) (v : Value),
      ¬ (markerNames entries).Nodup →
      ∃ m, schemaCall x (.dictS entries) v = .error (.schemaErr m) := by
  intro entries x v h
  have hlen : (markerNames entries).dedup.length ≠ (markerNames entries).length := by
    intro hl
    apply h
    have hsub := List.dedup_sublist (markerNames entries)
    have heq := hsub.eq_of_length hl
    exact List.dedup_eq_self.mp heq
  have hdup : dupMarkerNames entries = true := by
    unfold dupMarkerNames
    simpa using hlen
  unfold schemaCall schemaInitErr checkTopErr
  simp only [hdup, if_true]
  exact ⟨_, rfl⟩

/-- Witness for `marker_label_duplicates_error`: `Required(1)` and
`Required('1')` are distinct keys whose labels are both `"1"`. -/
theorem marker_label_duplicates_error_witness :
    ¬ (markerNames [(.required (.int 1) Option.none .undef, .typ .int),
        (.required (.str "1") Option.none .undef, .typ .int)]).Nodup ∧
    ∃ m, schemaCall 0 (.dictS [(.required (.int 1) Option.none .undef, .typ .int),
        (.required (.str "1") Option.none .undef, .typ .int)]) (.dict []) =
      .error (.schemaErr m) :=
  ⟨by decide, marker_label_duplicates_error
    [(.required (.int 1) Option.none .undef, .typ .int),
     (.required (.str "1") Option.none .undef, .typ .int)] 0 (.dict []) (by decide)⟩

end Voluptuous

